import Mathlib

/-!
Concurrent traffic simulation: MessageQueue, TrafficLight, TrafficObject.

A shallow embedding of `src/TrafficLight.cpp` and `src/TrafficObject.cpp`.

* Objects are records; a member function is a function from the record to the
  result and the updated record.
* A call that can block (`MessageQueue::receive` on an empty queue) returns
  `none`; loops without a bound (`waitForGreen`) take a number of iterations
  they are allowed to make.
* A thread that runs `cycleThroughPhases` is a control state (`ThreadState`) that
  is advanced one step at a time by a scheduler event; the clock readings and
  the random draw of a step are supplied with the event.
* `int` is a 32 bit two's complement integer (`wrapInt32`).
-/

/-! ## Data model -/

/-- Modelled from the spec: the enum TrafficLightPhase is declared in TrafficLight.h, which is
not among the sources; the spec gives its domain as Red and Green. -/
inductive TrafficLightPhase
  | red
  | green
deriving DecidableEq, Repr

/-- Modelled from the spec: the enum ObjectType is declared in TrafficObject.h, which is not among
the sources; `noObject` is the only enumerator the sources use. -/
inductive ObjectType
  | noObject
deriving DecidableEq, Repr

/-- The class template `MessageQueue<T>`: `_queue` is the `std::deque<T>`, head first. The mutex
and the condition variable carry no data. -/
structure MessageQueue (T : Type) where
  _queue : List T
deriving DecidableEq, Repr

/-- A `std::thread` handle, identified by the thread it stands for. -/
structure Thread where
  tid : Nat
deriving DecidableEq, Repr

/-- The data members of `TrafficObject` that the sources read or write (the position members are
touched by `setPosition` and `getPosition` only). -/
structure TrafficObject where
  _type : ObjectType
  _id : Int
  threads : List Thread
deriving DecidableEq, Repr

/-- The class `TrafficLight`, derived from `TrafficObject`. -/
structure TrafficLight extends TrafficObject where
  _currentPhase : TrafficLightPhase
  _messageQueue : MessageQueue TrafficLightPhase
deriving DecidableEq, Repr

/-! ## MessageQueue -/

/-- `MessageQueue<T>::send`: `_queue.push_back(std::move(msg))`. -/
def MessageQueue.send {T : Type} (mq : MessageQueue T) (msg : T) : MessageQueue T :=
  { _queue := mq._queue ++ [msg] }

/-- `MessageQueue<T>::receive`: waits until the queue is not empty, then takes the front
element. `none` stands for a call that is blocked in `_condition.wait` on an empty queue. -/
def MessageQueue.receive {T : Type} (mq : MessageQueue T) : Option (T × MessageQueue T) :=
  match mq._queue with
  | [] => none
  | msg :: rest => some (msg, { _queue := rest })

/-- One operation of a queue trace. -/
inductive QueueOp (T : Type)
  | send (v : T)
  | receive
deriving DecidableEq, Repr

/-- A queue together with the values its `receive` calls have returned so far. -/
structure QueueRun (T : Type) where
  queue : MessageQueue T
  returned : List T
deriving DecidableEq, Repr

/-- Executes one operation; `none` when a `receive` meets an empty queue. -/
def QueueRun.step {T : Type} (r : QueueRun T) : QueueOp T → Option (QueueRun T)
  | .send v => some { r with queue := r.queue.send v }
  | .receive =>
    match r.queue.receive with
    | none => none
    | some (msg, q) => some { queue := q, returned := r.returned ++ [msg] }

/-- Executes a trace of operations from left to right. -/
def QueueRun.exec {T : Type} (r : QueueRun T) : List (QueueOp T) → Option (QueueRun T)
  | [] => some r
  | op :: ops =>
    match r.step op with
    | none => none
    | some r1 => r1.exec ops

/-- The values sent by a trace, in send order. -/
def QueueOp.sent {T : Type} : List (QueueOp T) → List T
  | [] => []
  | .send v :: ops => v :: QueueOp.sent ops
  | .receive :: ops => QueueOp.sent ops

/-! ## TrafficObject -/

/-- The value of an `int` computation: 32 bit two's complement wrap-around. -/
def wrapInt32 (x : Int) : Int :=
  (x + 2147483648) % 4294967296 - 2147483648

/-- `TrafficObject::TrafficObject()`: `_type = ObjectType::noObject; _id = _idCnt++;`. Takes the
static counter `_idCnt` and returns the object with the counter after the increment. -/
def TrafficObject.ctor (_idCnt : Int) : TrafficObject × Int :=
  ({ _type := ObjectType.noObject, _id := _idCnt, threads := [] }, wrapInt32 (_idCnt + 1))

/-- A process: the static counter, every object constructed so far in construction order, and
the objects that are still alive. -/
structure Process where
  _idCnt : Int
  constructed : List TrafficObject
  alive : List TrafficObject
deriving DecidableEq, Repr

/-- An operation of a process on its traffic objects. -/
inductive ProcessOp
  | construct
  | destroy (k : Nat)
deriving DecidableEq, Repr

/-- The process at its start: `int TrafficObject::_idCnt = 0;`. -/
def Process.start : Process :=
  { _idCnt := 0, constructed := [], alive := [] }

/-- Executes one operation. `destroy k` ends the life of the `k`-th living object: the destructor
body only joins the threads of the object and does not touch `_idCnt`. -/
def Process.step (p : Process) : ProcessOp → Process
  | .construct =>
    let r := TrafficObject.ctor p._idCnt
    { _idCnt := r.2, constructed := p.constructed ++ [r.1], alive := p.alive ++ [r.1] }
  | .destroy k => { p with alive := p.alive.eraseIdx k }

/-- Executes a trace of operations from left to right. -/
def Process.exec (p : Process) (ops : List ProcessOp) : Process :=
  ops.foldl Process.step p

/-- The ids of the constructed objects, in construction order. -/
def Process.ids (p : Process) : List Int :=
  p.constructed.map (fun o => o._id)

/-! ## TrafficLight -/

/-- `TrafficLight::TrafficLight()`: the base constructor, then `_currentPhase = red`; the message
queue starts empty. -/
def TrafficLight.ctor (_idCnt : Int) : TrafficLight × Int :=
  let r := TrafficObject.ctor _idCnt
  ({ toTrafficObject := r.1, _currentPhase := TrafficLightPhase.red,
     _messageQueue := { _queue := [] } }, r.2)

/-- `TrafficLight::getCurrentPhase`: returns `_currentPhase`; the second component is the object
after the call. -/
def TrafficLight.getCurrentPhase (l : TrafficLight) : TrafficLightPhase × TrafficLight :=
  (l._currentPhase, l)

/-- `TrafficLight::setCurrentPhase`: `_currentPhase = phase`. -/
def TrafficLight.setCurrentPhase (l : TrafficLight) (phase : TrafficLightPhase) : TrafficLight :=
  { l with _currentPhase := phase }

/-- The result of running `waitForGreen` for a bounded number of loop iterations. -/
inductive WaitResult
  | returned (received : List TrafficLightPhase) (l : TrafficLight)
  | blocked (received : List TrafficLightPhase) (l : TrafficLight)
  | looping (received : List TrafficLightPhase) (l : TrafficLight)
deriving DecidableEq, Repr

/-- `TrafficLight::waitForGreen`: `while (true) { if (receive() == green) return; }`, run for at
most `n` iterations. `received` collects the values taken from the queue; `blocked` is a call that
sits in `receive` on an empty queue, `looping` a call that has iterations left to make. -/
def TrafficLight.waitForGreen : Nat → TrafficLight → List TrafficLightPhase → WaitResult
  | 0, l, received => WaitResult.looping received l
  | n + 1, l, received =>
    match l._messageQueue.receive with
    | none => WaitResult.blocked received l
    | some (msg, q) =>
      if msg = TrafficLightPhase.green then
        WaitResult.returned (received ++ [msg]) { l with _messageQueue := q }
      else
        TrafficLight.waitForGreen n { l with _messageQueue := q } (received ++ [msg])

/-- `TrafficLight::simulate`: `threads.emplace_back(std::thread(&cycleThroughPhases, this))`; `tid`
is the thread that was started. -/
def TrafficLight.simulate (l : TrafficLight) (tid : Nat) : TrafficLight :=
  { l with threads := l.threads ++ [{ tid := tid }] }

/-! ## cycleThroughPhases -/

/-- Modelled from the spec: the tick of `std::chrono::system_clock` is fixed by the C++ library,
not by the sources; this is the number of ticks in one millisecond (the time unit of the spec)
for a clock that counts nanoseconds. The results below use only that it is positive. -/
def systemClockTicksPerMs : Int := 1000000

/-- A value `dis(gen)` of `std::uniform_int_distribution<> dis(4000, 6000)`. -/
abbrev CycleDraw := { d : Int // 4000 ≤ d ∧ d ≤ 6000 }

/-- What the environment supplies to one step of a thread in `cycleThroughPhases`: the random
draw (used by the step before the loop), the reading of `system_clock::now()` of the step
(`lastUpdate` initialisation, or the reading in `timeSinceLastUpdate`), and the later reading that
resets the stop watch. Readings are in clock ticks. -/
structure CycleInput where
  draw : CycleDraw
  now : Int
  nowAtReset : Int

/-- Where a thread started by `simulate` is in `cycleThroughPhases`: at the entry of the
function, at the head of `while (true)` with its locals, or past the end of the function. -/
inductive ThreadState
  | entry
  | inLoop (cycleDuration : Int) (lastUpdate : Int)
  | returned
deriving DecidableEq, Repr

/-- `duration_cast<milliseconds>(now - lastUpdate).count()`: the cast truncates toward zero. -/
def timeSinceLastUpdate (now lastUpdate : Int) : Int :=
  Int.tdiv (now - lastUpdate) systemClockTicksPerMs

/-- The toggle and the send of `cycleThroughPhases` (the body of
`if (timeSinceLastUpdate >= cycleDuration)` up to the send):
`if (getCurrentPhase()==red) setCurrentPhase(green); else if (getCurrentPhase()==green)
setCurrentPhase(red); _messageQueue.send(std::move(_currentPhase));`. -/
def TrafficLight.toggleAndSend (l : TrafficLight) : TrafficLight :=
  let g1 := l.getCurrentPhase
  let l1 :=
    if g1.1 = TrafficLightPhase.red then
      g1.2.setCurrentPhase TrafficLightPhase.green
    else
      let g2 := g1.2.getCurrentPhase
      if g2.1 = TrafficLightPhase.green then
        g2.2.setCurrentPhase TrafficLightPhase.red
      else g2.2
  { l1 with _messageQueue := l1._messageQueue.send l1._currentPhase }

/-- One step of a thread in `TrafficLight::cycleThroughPhases`, on the light it shares with its
callers. From `entry`: the print, the draw of `cycleDuration` and the start of the stop watch.
From `inLoop`: one iteration of `while (true)`; `cycleDuration` is a `double` that holds the drawn
integer, and the comparison of the `long` with it is the comparison of the two integers. The loop
body has no `break` and no `return`, so an iteration ends at the loop head. -/
def TrafficLight.cycleThroughPhases (l : TrafficLight) (st : ThreadState) (inp : CycleInput) :
    TrafficLight × ThreadState :=
  match st with
  | ThreadState.entry => (l, ThreadState.inLoop inp.draw.1 inp.now)
  | ThreadState.inLoop cycleDuration lastUpdate =>
    if timeSinceLastUpdate inp.now lastUpdate ≥ cycleDuration then
      (l.toggleAndSend, ThreadState.inLoop cycleDuration inp.nowAtReset)
    else
      (l, ThreadState.inLoop cycleDuration lastUpdate)
  | ThreadState.returned => (l, ThreadState.returned)

/-- Runs one thread alone through the given steps. -/
def TrafficLight.cycleRun (l : TrafficLight) (st : ThreadState) :
    List CycleInput → TrafficLight × ThreadState
  | [] => (l, st)
  | inp :: inps =>
    let r := l.cycleThroughPhases st inp
    TrafficLight.cycleRun r.1 r.2 inps

/-- Whether the step from `st` with input `inp` is a loop iteration that takes the branch
`if (timeSinceLastUpdate >= cycleDuration)`, the toggle. -/
def ThreadState.toggles (st : ThreadState) (inp : CycleInput) : Bool :=
  match st with
  | ThreadState.inLoop cycleDuration lastUpdate =>
    decide (timeSinceLastUpdate inp.now lastUpdate ≥ cycleDuration)
  | _ => false

/-- The number of toggles one thread makes in the given steps. -/
def TrafficLight.toggleCount (l : TrafficLight) (st : ThreadState) : List CycleInput → Nat
  | [] => 0
  | inp :: inps =>
    let r := l.cycleThroughPhases st inp
    (if st.toggles inp then 1 else 0) + TrafficLight.toggleCount r.1 r.2 inps

/-- The phases green, red, green, ... : `n` values. -/
def alternation (n : Nat) : List TrafficLightPhase :=
  (List.range n).map
    (fun i => if i % 2 = 0 then TrafficLightPhase.green else TrafficLightPhase.red)

/-! ## A light with its threads, and its destruction -/

/-- A light together with the control states of the threads recorded in `threads` (the state at
index `j` belongs to the handle at index `j`). -/
structure World where
  light : TrafficLight
  workers : List ThreadState
deriving DecidableEq, Repr

/-- What can happen to a living light: a call of `simulate`, or one step of its thread `j`. -/
inductive Event
  | simulate (tid : Nat)
  | worker (j : Nat) (inp : CycleInput)

/-- Executes one event. -/
def World.step (w : World) : Event → World
  | .simulate tid =>
    { light := w.light.simulate tid, workers := w.workers ++ [ThreadState.entry] }
  | .worker j inp =>
    match w.workers[j]? with
    | none => w
    | some st =>
      let r := w.light.cycleThroughPhases st inp
      { light := r.1, workers := w.workers.set j r.2 }

/-- Executes events from left to right. -/
def World.run (w : World) (evs : List Event) : World :=
  evs.foldl World.step w

/-- A newly constructed light, no thread started. -/
def World.fresh (_idCnt : Int) : World :=
  { light := (TrafficLight.ctor _idCnt).1, workers := [] }

/-- The state of `TrafficObject::~TrafficObject()`, the `std::for_each` over `threads`: the
handles on which `join()` has been called so far, the position of the iterator, and whether the
destructor is inside the `join()` of the handle at that position. -/
structure Teardown where
  world : World
  joinCalls : List Thread
  pos : Nat
  inJoin : Bool
deriving DecidableEq, Repr

/-- What can happen while an object is destroyed: a step of its thread `j`, or a step of the
destructor. -/
inductive TeardownEvent
  | worker (j : Nat) (inp : CycleInput)
  | destructor

/-- The destructor is entered. -/
def Teardown.start (w : World) : Teardown :=
  { world := w, joinCalls := [], pos := 0, inJoin := false }

/-- Executes one event. A destructor step calls `t.join()` on the handle at the iterator, or, when
it is inside `join()`, returns from it if that thread has ended (`join()` blocks until then) and
moves the iterator on. -/
def Teardown.step (t : Teardown) : TeardownEvent → Teardown
  | .worker j inp => { t with world := t.world.step (Event.worker j inp) }
  | .destructor =>
    match t.world.light.threads[t.pos]? with
    | none => t
    | some h =>
      if t.inJoin then
        if t.world.workers[t.pos]? = some ThreadState.returned then
          { t with pos := t.pos + 1, inJoin := false }
        else t
      else
        { t with joinCalls := t.joinCalls ++ [h], inJoin := true }

/-- Executes events from left to right. -/
def Teardown.run (t : Teardown) (evs : List TeardownEvent) : Teardown :=
  evs.foldl Teardown.step t

/-- The destructor has left the `for_each`: the iterator is at `threads.end()`. -/
def Teardown.finished (t : Teardown) : Bool :=
  decide (t.world.light.threads.length ≤ t.pos)

/-- The handles that the `simulate` calls among the events record, in call order. -/
def Event.handles : List Event → List Thread
  | [] => []
  | Event.simulate tid :: evs => { tid := tid } :: Event.handles evs
  | Event.worker _ _ :: evs => Event.handles evs

/-- Every recorded handle has its thread state, and no thread has left `cycleThroughPhases`. -/
def World.Running (w : World) : Prop :=
  w.workers.length = w.light.threads.length ∧ ∀ st ∈ w.workers, st ≠ ThreadState.returned

/-- Every recorded handle has its thread state, and every thread has ended. -/
def World.AllReturned (w : World) : Prop :=
  w.workers = List.replicate w.light.threads.length ThreadState.returned

/-! ## Locks and accesses to `_currentPhase` -/

/-- The mutexes of the sources: `TrafficLight::_phaseMutex`, `MessageQueue::_mutex` and the static
`TrafficObject::_mtx`. -/
inductive Mutex
  | _phaseMutex
  | _mutex
  | _mtx
deriving DecidableEq, Repr

/-- What a thread does, as far as locks and `_currentPhase` go. -/
inductive Access
  | lock (m : Mutex)
  | unlock (m : Mutex)
  | readCurrentPhase
  | writeCurrentPhase
  | pushBack
deriving DecidableEq, Repr

/-- Accesses of `getCurrentPhase`: `lock_guard lock(_phaseMutex); return _currentPhase;`. -/
def getCurrentPhaseAccesses : List Access :=
  [Access.lock Mutex._phaseMutex, Access.readCurrentPhase, Access.unlock Mutex._phaseMutex]

/-- Accesses of `setCurrentPhase`: `lock_guard lock(_phaseMutex); _currentPhase = phase;`. -/
def setCurrentPhaseAccesses : List Access :=
  [Access.lock Mutex._phaseMutex, Access.writeCurrentPhase, Access.unlock Mutex._phaseMutex]

/-- Accesses of `_messageQueue.send(std::move(_currentPhase))`: the argument is a reference to the
member `_currentPhase`, whose value `push_back` reads inside `send`, under the queue's `_mutex`. -/
def sendCurrentPhaseAccesses : List Access :=
  [Access.lock Mutex._mutex, Access.readCurrentPhase, Access.pushBack, Access.unlock Mutex._mutex]

/-- Accesses of the toggle and the send, with the branches of `toggleAndSend`. -/
def TrafficLight.toggleAndSendAccesses (l : TrafficLight) : List Access :=
  (if l._currentPhase = TrafficLightPhase.red then
    getCurrentPhaseAccesses ++ setCurrentPhaseAccesses
  else
    getCurrentPhaseAccesses ++ (getCurrentPhaseAccesses ++
      (if l._currentPhase = TrafficLightPhase.green then setCurrentPhaseAccesses else [])))
  ++ sendCurrentPhaseAccesses

/-- Accesses of one step of `cycleThroughPhases`, with the branches of that step. -/
def TrafficLight.cycleThroughPhasesAccesses (l : TrafficLight) (st : ThreadState)
    (inp : CycleInput) : List Access :=
  match st with
  | ThreadState.entry => [Access.lock Mutex._mtx, Access.unlock Mutex._mtx]
  | ThreadState.inLoop cycleDuration lastUpdate =>
    if timeSinceLastUpdate inp.now lastUpdate ≥ cycleDuration then l.toggleAndSendAccesses
    else []
  | ThreadState.returned => []

/-- Whether every access to `_currentPhase` in the trace of one thread happens while that thread
holds `_phaseMutex`; `held` says whether it holds the mutex at the start of the trace. -/
def phaseAccessesLocked : Bool → List Access → Bool
  | _, [] => true
  | held, a :: rest =>
    match a with
    | Access.lock Mutex._phaseMutex => phaseAccessesLocked true rest
    | Access.unlock Mutex._phaseMutex => phaseAccessesLocked false rest
    | Access.readCurrentPhase => held && phaseAccessesLocked held rest
    | Access.writeCurrentPhase => held && phaseAccessesLocked held rest
    | _ => phaseAccessesLocked held rest

/-! ## MessageQueue is first in, first out -/

theorem MessageQueue.send_queue {T : Type} (mq : MessageQueue T) (v : T) :
    (mq.send v)._queue = mq._queue ++ [v] := rfl

theorem MessageQueue.receive_cons {T : Type} (v : T) (rest : List T) :
    MessageQueue.receive { _queue := v :: rest } = some (v, { _queue := rest }) := rfl

theorem QueueRun.step_content {T : Type} (r r1 : QueueRun T) (op : QueueOp T)
    (h : r.step op = some r1) :
    r1.returned ++ r1.queue._queue = r.returned ++ r.queue._queue ++ QueueOp.sent [op] := by
  cases op with
  | send v =>
    simp only [QueueRun.step, Option.some.injEq] at h
    subst h
    simp [QueueOp.sent, MessageQueue.send]
  | receive =>
    obtain ⟨q, ret⟩ := r
    obtain ⟨items⟩ := q
    cases items with
    | nil => simp [QueueRun.step, MessageQueue.receive] at h
    | cons x xs =>
      simp only [QueueRun.step, MessageQueue.receive, Option.some.injEq] at h
      subst h
      simp [QueueOp.sent]

theorem QueueOp.sent_cons {T : Type} (op : QueueOp T) (ops : List (QueueOp T)) :
    QueueOp.sent (op :: ops) = QueueOp.sent [op] ++ QueueOp.sent ops := by
  cases op <;> simp [QueueOp.sent]

theorem QueueRun.exec_content {T : Type} (ops : List (QueueOp T)) :
    ∀ r r1 : QueueRun T, r.exec ops = some r1 →
      r1.returned ++ r1.queue._queue = r.returned ++ r.queue._queue ++ QueueOp.sent ops := by
  induction ops with
  | nil =>
    intro r r1 h
    simp only [QueueRun.exec, Option.some.injEq] at h
    subst h
    simp [QueueOp.sent]
  | cons op ops ih =>
    intro r r1 h
    simp only [QueueRun.exec] at h
    cases hs : r.step op with
    | none => simp [hs] at h
    | some r2 =>
      simp only [hs] at h
      rw [ih r2 r1 h, QueueRun.step_content r r2 op hs, QueueOp.sent_cons op ops]
      simp

/-- C1: for every trace of send and receive operations that starts on an empty queue and in
which every receive meets a non-empty queue (the trace executes), send appends at the tail and
receive takes the head, the values returned are a prefix of the values sent in send order, the
i-th value returned is the i-th value sent (so no sent value is returned twice), and the queue
content after the trace is exactly the sent values not yet returned, in send order. -/
theorem MessageQueue.fifo {T : Type} (ops : List (QueueOp T)) (r : QueueRun T)
    (h : QueueRun.exec { queue := { _queue := [] }, returned := [] } ops = some r) :
    (∀ (mq : MessageQueue T) (v : T), (mq.send v)._queue = mq._queue ++ [v]) ∧
    (∀ (v : T) (rest : List T),
      MessageQueue.receive { _queue := v :: rest } = some (v, { _queue := rest })) ∧
    r.returned <+: QueueOp.sent ops ∧
    r.returned.length ≤ (QueueOp.sent ops).length ∧
    (∀ i, i < r.returned.length → r.returned[i]? = (QueueOp.sent ops)[i]?) ∧
    r.queue._queue = (QueueOp.sent ops).drop r.returned.length ∧
    r.returned ++ r.queue._queue = QueueOp.sent ops := by
  have hc := QueueRun.exec_content ops _ r h
  simp only [List.nil_append] at hc
  refine ⟨MessageQueue.send_queue, MessageQueue.receive_cons, ⟨r.queue._queue, hc⟩, ?_, ?_, ?_, hc⟩
  · rw [← hc]; simp
  · intro i hi
    rw [← hc, List.getElem?_append_left hi]
  · rw [← hc]; simp

/-- Witness of C1: send red, send green, receive, send red, receive. -/
theorem MessageQueue.fifo_witness :
    QueueRun.exec { queue := { _queue := [] }, returned := [] }
        [QueueOp.send TrafficLightPhase.red, QueueOp.send TrafficLightPhase.green,
         QueueOp.receive, QueueOp.send TrafficLightPhase.red, QueueOp.receive]
      = some { queue := { _queue := [TrafficLightPhase.red] },
               returned := [TrafficLightPhase.red, TrafficLightPhase.green] } ∧
    ([TrafficLightPhase.red, TrafficLightPhase.green] : List TrafficLightPhase)
        ++ [TrafficLightPhase.red]
      = QueueOp.sent [QueueOp.send TrafficLightPhase.red, QueueOp.send TrafficLightPhase.green,
         QueueOp.receive, QueueOp.send TrafficLightPhase.red, QueueOp.receive] :=
  ⟨by decide,
   (MessageQueue.fifo
      [QueueOp.send TrafficLightPhase.red, QueueOp.send TrafficLightPhase.green,
       QueueOp.receive, QueueOp.send TrafficLightPhase.red, QueueOp.receive]
      { queue := { _queue := [TrafficLightPhase.red] },
        returned := [TrafficLightPhase.red, TrafficLightPhase.green] }
      (by decide)).2.2.2.2.2.2⟩

/-! ## waitForGreen -/

theorem TrafficLight.waitForGreen_skip (pre : List TrafficLightPhase)
    (hpre : TrafficLightPhase.green ∉ pre) :
    ∀ (n : Nat) (l : TrafficLight) (received rest : List TrafficLightPhase),
      l._messageQueue._queue = pre ++ rest →
      TrafficLight.waitForGreen (pre.length + n) l received
        = TrafficLight.waitForGreen n { l with _messageQueue := { _queue := rest } }
            (received ++ pre) := by
  induction pre with
  | nil =>
    intro n l received rest h
    obtain ⟨o, ph, ⟨q⟩⟩ := l
    simp only [List.nil_append] at h
    subst h
    simp
  | cons p pre ih =>
    intro n l received rest h
    have hp : p ≠ TrafficLightPhase.green := fun e => hpre (by simp [e])
    have hpre1 : TrafficLightPhase.green ∉ pre := fun e => hpre (List.mem_cons_of_mem _ e)
    have hlen : (p :: pre).length + n = (pre.length + n) + 1 := by simp; omega
    rw [hlen, TrafficLight.waitForGreen]
    simp only [MessageQueue.receive, h, List.cons_append, if_neg hp]
    rw [ih hpre1 n _ (received ++ [p]) rest rfl]
    simp

theorem TrafficLight.waitForGreen_last (n : Nat) :
    ∀ (l l1 : TrafficLight) (received r : List TrafficLightPhase),
      TrafficLight.waitForGreen n l received = WaitResult.returned r l1 →
      r.getLast? = some TrafficLightPhase.green := by
  induction n with
  | zero => intro l l1 received r h; simp [TrafficLight.waitForGreen] at h
  | succ n ih =>
    intro l l1 received r h
    rw [TrafficLight.waitForGreen] at h
    cases hq : l._messageQueue.receive with
    | none => simp [hq] at h
    | some mq =>
      obtain ⟨msg, q⟩ := mq
      simp only [hq] at h
      by_cases hm : msg = TrafficLightPhase.green
      · simp only [if_pos hm, WaitResult.returned.injEq] at h
        rw [← h.1, hm]; simp
      · simp only [if_neg hm] at h
        exact ih _ _ _ _ h

/-- C2: waitForGreen returns only on green. When the queue is `pre ++ green :: post` with no
green in `pre` (every queue that holds a green is so, in one way), every run that is allowed more
than `pre.length` iterations returns, having received exactly `pre` and then that green, and
leaves exactly `post` in the queue, everything else unchanged. Whenever a run returns, the value it
received last is green, never red. When the queue holds no green, no run returns, however many
iterations it is allowed: with more than `length` iterations it has received the whole queue and is
blocked in `receive` on the empty queue. -/
theorem TrafficLight.waitForGreen_spec (l : TrafficLight) :
    (TrafficLightPhase.green ∈ l._messageQueue._queue →
      ∃ pre post, l._messageQueue._queue = pre ++ TrafficLightPhase.green :: post ∧
        TrafficLightPhase.green ∉ pre ∧
        ∀ n, pre.length < n →
          TrafficLight.waitForGreen n l []
            = WaitResult.returned (pre ++ [TrafficLightPhase.green])
                { l with _messageQueue := { _queue := post } }) ∧
    (∀ n r l1, TrafficLight.waitForGreen n l [] = WaitResult.returned r l1 →
      r.getLast? = some TrafficLightPhase.green ∧ r.getLast? ≠ some TrafficLightPhase.red) ∧
    (TrafficLightPhase.green ∉ l._messageQueue._queue →
      (∀ n r l1, TrafficLight.waitForGreen n l [] ≠ WaitResult.returned r l1) ∧
      ∀ n, l._messageQueue._queue.length < n →
        TrafficLight.waitForGreen n l []
          = WaitResult.blocked l._messageQueue._queue
              { l with _messageQueue := { _queue := [] } }) := by
  refine ⟨?_, ?_, ?_⟩
  · intro hg
    obtain ⟨pre, post, hq, hpre⟩ := List.eq_append_cons_of_mem hg
    refine ⟨pre, post, hq, hpre, ?_⟩
    intro n hn
    obtain ⟨m, rfl⟩ : ∃ m, n = pre.length + (m + 1) := ⟨n - pre.length - 1, by omega⟩
    rw [TrafficLight.waitForGreen_skip pre hpre (m + 1) l [] _ hq, TrafficLight.waitForGreen]
    simp [MessageQueue.receive]
  · intro n r l1 h
    have hl := TrafficLight.waitForGreen_last n l l1 [] r h
    exact ⟨hl, by rw [hl]; decide⟩
  · intro hg
    have hblock : ∀ n, l._messageQueue._queue.length < n →
        TrafficLight.waitForGreen n l []
          = WaitResult.blocked l._messageQueue._queue
              { l with _messageQueue := { _queue := [] } } := by
      intro n hn
      obtain ⟨m, rfl⟩ : ∃ m, n = l._messageQueue._queue.length + (m + 1) :=
        ⟨n - l._messageQueue._queue.length - 1, by omega⟩
      rw [TrafficLight.waitForGreen_skip _ hg (m + 1) l [] [] (by simp),
        TrafficLight.waitForGreen]
      simp [MessageQueue.receive]
    refine ⟨?_, hblock⟩
    intro n r l1 h
    by_cases hn : l._messageQueue._queue.length < n
    · rw [hblock n hn] at h; cases h
    · obtain ⟨m, hm⟩ : ∃ m, l._messageQueue._queue.length = n + m :=
        ⟨l._messageQueue._queue.length - n, by omega⟩
      have hsplit : l._messageQueue._queue
          = l._messageQueue._queue.take n ++ l._messageQueue._queue.drop n := by simp
      have hno : TrafficLightPhase.green ∉ l._messageQueue._queue.take n :=
        fun e => hg (List.mem_of_mem_take e)
      have hlen : (l._messageQueue._queue.take n).length = n := by
        rw [List.length_take]; omega
      have := TrafficLight.waitForGreen_skip _ hno 0 l [] _ hsplit
      rw [hlen, Nat.add_zero] at this
      rw [this] at h
      simp [TrafficLight.waitForGreen] at h

/-- Witness of C2: a light whose queue holds red, green, red. -/
theorem TrafficLight.waitForGreen_spec_witness :
    TrafficLightPhase.green ∈
        ([TrafficLightPhase.red, TrafficLightPhase.green, TrafficLightPhase.red] :
          List TrafficLightPhase) ∧
    TrafficLight.waitForGreen 2
        { _type := ObjectType.noObject, _id := 0, threads := [],
          _currentPhase := TrafficLightPhase.red,
          _messageQueue := { _queue := [TrafficLightPhase.red, TrafficLightPhase.green,
            TrafficLightPhase.red] } } []
      = WaitResult.returned [TrafficLightPhase.red, TrafficLightPhase.green]
          { _type := ObjectType.noObject, _id := 0, threads := [],
            _currentPhase := TrafficLightPhase.red,
            _messageQueue := { _queue := [TrafficLightPhase.red] } } ∧
    ([TrafficLightPhase.red, TrafficLightPhase.green] : List TrafficLightPhase).getLast?
      = some TrafficLightPhase.green :=
  ⟨by decide, by decide,
   ((TrafficLight.waitForGreen_spec
      { _type := ObjectType.noObject, _id := 0, threads := [],
        _currentPhase := TrafficLightPhase.red,
        _messageQueue := { _queue := [TrafficLightPhase.red, TrafficLightPhase.green,
          TrafficLightPhase.red] } }).2.1 2
      [TrafficLightPhase.red, TrafficLightPhase.green]
      { _type := ObjectType.noObject, _id := 0, threads := [],
        _currentPhase := TrafficLightPhase.red,
        _messageQueue := { _queue := [TrafficLightPhase.red] } }
      (by decide)).1⟩

/-! ## Object ids -/

theorem wrapInt32_succ (n : Int) : wrapInt32 (wrapInt32 n + 1) = wrapInt32 (n + 1) := by
  unfold wrapInt32; omega

theorem wrapInt32_of_lt (k : Nat) (h : k < 2147483648) : wrapInt32 (k : Int) = (k : Int) := by
  unfold wrapInt32; omega

theorem Process.exec_snoc (p : Process) (ops : List ProcessOp) (op : ProcessOp) :
    p.exec (ops ++ [op]) = (p.exec ops).step op := by
  simp [Process.exec, List.foldl_append]

/-- After a trace with `n` constructions the counter is `n` as an `int`, and the objects
constructed carry the `int` values of 0, 1, ..., n - 1 in this order. -/
theorem Process.exec_ids (ops : List ProcessOp) :
    (Process.start.exec ops)._idCnt = wrapInt32 (ops.count ProcessOp.construct : Nat) ∧
    (Process.start.exec ops).ids
      = (List.range (ops.count ProcessOp.construct)).map (fun i : Nat => wrapInt32 (i : Int)) := by
  induction ops using List.reverseRecOn with
  | nil => exact ⟨by decide, by decide⟩
  | append_singleton ops op ih =>
    obtain ⟨hc, hi⟩ := ih
    rw [Process.exec_snoc]
    cases op with
    | construct =>
      have hcount : (ops ++ [ProcessOp.construct]).count ProcessOp.construct
          = ops.count ProcessOp.construct + 1 := by simp
      rw [hcount]
      constructor
      · simp only [Process.step, TrafficObject.ctor, hc]
        rw [wrapInt32_succ]; push_cast; rfl
      · simp only [Process.ids] at hi
        simp only [Process.step, TrafficObject.ctor, Process.ids, List.map_append, hi, hc,
          List.range_succ, List.map_cons, List.map_nil]
    | destroy k =>
      have hcount : (ops ++ [ProcessOp.destroy k]).count ProcessOp.construct
          = ops.count ProcessOp.construct := by simp
      rw [hcount]
      exact ⟨hc, hi⟩

theorem Process.exec_id_at (ops : List ProcessOp) (k : Nat)
    (hk : k < ops.count ProcessOp.construct) :
    (Process.start.exec ops).ids[k]? = some (wrapInt32 (k : Int)) := by
  rw [(Process.exec_ids ops).2, List.getElem?_map, List.getElem?_range hk]
  rfl

/-- C4, as the code has it: in every trace of constructions and destructions, the ids handed out
are as many as the constructions; the k-th constructed object (k from 0) gets id k as long as
k < 2^31 (the range of the `int` counter), so among these objects a later one has a strictly
greater id than an earlier one and no two share an id; the counter equals the number of
constructions made so far while that is below 2^31; a destruction changes neither the counter nor
any id handed out. -/
theorem Process.ids_spec (ops : List ProcessOp) :
    (Process.start.exec ops).ids.length = ops.count ProcessOp.construct ∧
    (∀ k : Nat, k < ops.count ProcessOp.construct → k < 2147483648 →
      (Process.start.exec ops).ids[k]? = some (k : Int)) ∧
    (∀ (i j : Nat) (a b : Int), i < j → j < 2147483648 →
      (Process.start.exec ops).ids[i]? = some a → (Process.start.exec ops).ids[j]? = some b →
      a < b) ∧
    (ops.count ProcessOp.construct < 2147483648 →
      (Process.start.exec ops)._idCnt = (ops.count ProcessOp.construct : Nat)) ∧
    (∀ (p : Process) (k : Nat),
      (p.step (ProcessOp.destroy k))._idCnt = p._idCnt ∧
      (p.step (ProcessOp.destroy k)).ids = p.ids) := by
  have hlen : (Process.start.exec ops).ids.length = ops.count ProcessOp.construct := by
    rw [(Process.exec_ids ops).2]; simp
  have hat : ∀ k : Nat, k < ops.count ProcessOp.construct → k < 2147483648 →
      (Process.start.exec ops).ids[k]? = some (k : Int) := by
    intro k hk hr
    rw [Process.exec_id_at ops k hk, wrapInt32_of_lt k hr]
  refine ⟨hlen, hat, ?_, ?_, ?_⟩
  · intro i j a b hij hj ha hb
    have hjn : j < ops.count ProcessOp.construct := by
      rw [← hlen]
      exact (List.getElem?_eq_some_iff.mp hb).1
    rw [hat j hjn hj] at hb
    rw [hat i (by omega) (by omega)] at ha
    simp only [Option.some.injEq] at ha hb
    omega
  · intro hn
    rw [(Process.exec_ids ops).1, wrapInt32_of_lt _ hn]
  · intro p k
    exact ⟨rfl, rfl⟩

/-- Witness of C4: construct, destroy the object, construct again; the second object has id 1. -/
theorem Process.ids_spec_witness :
    (1 : Nat) < [ProcessOp.construct, ProcessOp.destroy 0, ProcessOp.construct].count
        ProcessOp.construct ∧
    (Process.start.exec [ProcessOp.construct, ProcessOp.destroy 0, ProcessOp.construct]).ids[1]?
      = some ((1 : Nat) : Int) :=
  ⟨by decide,
   (Process.ids_spec [ProcessOp.construct, ProcessOp.destroy 0, ProcessOp.construct]).2.1 1
     (by decide) (by decide)⟩

/-- C4 as stated fails: in the trace of 2^31 + 1 constructions, the object constructed at
position 2^31 gets the id -2^31, which is not its position and is below the id 0 of the first
object. -/
theorem Process.ids_counterexample :
    (Process.start.exec (List.replicate 2147483649 ProcessOp.construct)).ids[2147483648]?
      = some (-2147483648 : Int) ∧
    (Process.start.exec (List.replicate 2147483649 ProcessOp.construct)).ids[0]?
      = some (0 : Int) ∧
    (-2147483648 : Int) ≠ ((2147483648 : Nat) : Int) ∧
    (-2147483648 : Int) < 0 := by
  have hcount : (List.replicate 2147483649 ProcessOp.construct).count ProcessOp.construct
      = 2147483649 := List.count_replicate_self _ _
  refine ⟨?_, ?_, by omega, by omega⟩
  · rw [Process.exec_id_at _ 2147483648 (by rw [hcount]; omega)]
    unfold wrapInt32; congr 1
  · rw [Process.exec_id_at _ 0 (by rw [hcount]; omega)]
    unfold wrapInt32; congr 1

/-! ## Phase accessors -/

/-- C5: getCurrentPhase right after setCurrentPhase(p) returns p; getCurrentPhase returns the
phase and leaves the whole object as it was; setCurrentPhase is total and changes the phase only:
type, id, thread list and message queue stay, nothing is published. -/
theorem TrafficLight.phase_accessors (l : TrafficLight) (p : TrafficLightPhase) :
    (l.setCurrentPhase p).getCurrentPhase.1 = p ∧
    l.getCurrentPhase.1 = l._currentPhase ∧
    l.getCurrentPhase.2 = l ∧
    (l.setCurrentPhase p).getCurrentPhase.2 = l.setCurrentPhase p ∧
    (l.setCurrentPhase p)._messageQueue = l._messageQueue ∧
    (l.setCurrentPhase p).threads = l.threads ∧
    (l.setCurrentPhase p)._id = l._id ∧
    (l.setCurrentPhase p)._type = l._type ∧
    (l.setCurrentPhase p).toTrafficObject = l.toTrafficObject ∧
    l.setCurrentPhase p = { l with _currentPhase := p } :=
  ⟨rfl, rfl, rfl, rfl, rfl, rfl, rfl, rfl, rfl, rfl⟩

/-! ## The toggle -/

theorem TrafficLight.toggleAndSend_red (l : TrafficLight)
    (h : l._currentPhase = TrafficLightPhase.red) :
    l.toggleAndSend = { l with _currentPhase := TrafficLightPhase.green,
                               _messageQueue := l._messageQueue.send TrafficLightPhase.green } := by
  simp [TrafficLight.toggleAndSend, TrafficLight.getCurrentPhase, TrafficLight.setCurrentPhase, h]

theorem TrafficLight.toggleAndSend_green (l : TrafficLight)
    (h : l._currentPhase = TrafficLightPhase.green) :
    l.toggleAndSend = { l with _currentPhase := TrafficLightPhase.red,
                               _messageQueue := l._messageQueue.send TrafficLightPhase.red } := by
  simp [TrafficLight.toggleAndSend, TrafficLight.getCurrentPhase, TrafficLight.setCurrentPhase, h]

theorem alternation_succ (n : Nat) :
    alternation (n + 1) = alternation n ++
      [if n % 2 = 0 then TrafficLightPhase.green else TrafficLightPhase.red] := by
  simp [alternation, List.range_succ]

theorem alternation_length (n : Nat) : (alternation n).length = n := by
  simp [alternation]

/-- After `n` toggles of a light that is red: the phase by the parity of `n`, the queue longer by
the alternation of `n` values, the rest unchanged. -/
theorem TrafficLight.toggleAndSend_iterate (l : TrafficLight)
    (h : l._currentPhase = TrafficLightPhase.red) (n : Nat) :
    (TrafficLight.toggleAndSend^[n] l) =
      { l with _currentPhase :=
                 if n % 2 = 0 then TrafficLightPhase.red else TrafficLightPhase.green,
               _messageQueue := { _queue := l._messageQueue._queue ++ alternation n } } := by
  induction n with
  | zero =>
    obtain ⟨o, ph, ⟨q⟩⟩ := l
    simp only [] at h
    subst h
    simp [alternation]
  | succ n ih =>
    rw [Function.iterate_succ_apply', ih, alternation_succ]
    rcases Nat.mod_two_eq_zero_or_one n with h0 | h1
    · have h2 : (n + 1) % 2 ≠ 0 := by omega
      rw [TrafficLight.toggleAndSend_red _ (by simp [h0])]
      simp [h0, h2, MessageQueue.send]
    · have h2 : (n + 1) % 2 = 0 := by omega
      have h3 : n % 2 ≠ 0 := by omega
      rw [TrafficLight.toggleAndSend_green _ (by simp [h3])]
      simp [h3, h2, MessageQueue.send]

/-- A run of one thread changes the light by its toggles, nothing else. -/
theorem TrafficLight.cycleRun_light (inps : List CycleInput) :
    ∀ (l : TrafficLight) (st : ThreadState),
      (l.cycleRun st inps).1 = TrafficLight.toggleAndSend^[l.toggleCount st inps] l := by
  induction inps with
  | nil => intro l st; rfl
  | cons inp inps ih =>
    intro l st
    simp only [TrafficLight.cycleRun, TrafficLight.toggleCount]
    rw [ih]
    cases st with
    | entry => simp [TrafficLight.cycleThroughPhases, ThreadState.toggles]
    | returned => simp [TrafficLight.cycleThroughPhases, ThreadState.toggles]
    | inLoop d last =>
      by_cases hc : timeSinceLastUpdate inp.now last ≥ d
      · have hd : decide (timeSinceLastUpdate inp.now last ≥ d) = true := decide_eq_true hc
        simp only [TrafficLight.cycleThroughPhases, ThreadState.toggles, if_pos hc, hd, if_true]
        rw [Nat.add_comm, Function.iterate_succ_apply]
      · simp [TrafficLight.cycleThroughPhases, ThreadState.toggles, if_neg hc, hc]

theorem TrafficLight.ctor_phase (c : Int) :
    (TrafficLight.ctor c).1._currentPhase = TrafficLightPhase.red := rfl

theorem TrafficLight.ctor_queue (c : Int) :
    (TrafficLight.ctor c).1._messageQueue._queue = [] := rfl

theorem TrafficLight.toggles_phase (c : Int) (n : Nat) :
    (TrafficLight.toggleAndSend^[n] (TrafficLight.ctor c).1)._currentPhase
      = if n % 2 = 0 then TrafficLightPhase.red else TrafficLightPhase.green := by
  rw [TrafficLight.toggleAndSend_iterate _ (TrafficLight.ctor_phase c) n]

theorem TrafficLight.toggles_queue (c : Int) (n : Nat) :
    (TrafficLight.toggleAndSend^[n] (TrafficLight.ctor c).1)._messageQueue._queue
      = alternation n := by
  rw [TrafficLight.toggleAndSend_iterate _ (TrafficLight.ctor_phase c) n]
  simp [TrafficLight.ctor_queue]

theorem alternation_getElem? (n i : Nat) (h : i < n) :
    (alternation n)[i]? = some (if i % 2 = 0 then TrafficLightPhase.green
      else TrafficLightPhase.red) := by
  simp [alternation, List.getElem?_range h]

theorem TrafficLight.toggleAndSend_flips (l : TrafficLight) :
    (l._currentPhase = TrafficLightPhase.red →
      l.toggleAndSend._currentPhase = TrafficLightPhase.green) ∧
    (l._currentPhase = TrafficLightPhase.green →
      l.toggleAndSend._currentPhase = TrafficLightPhase.red) ∧
    l.toggleAndSend._currentPhase ≠ l._currentPhase := by
  cases h : l._currentPhase with
  | red => rw [TrafficLight.toggleAndSend_red l h]; simp
  | green => rw [TrafficLight.toggleAndSend_green l h]; simp

/-- C3: a newly constructed light is red; after N toggles of the broadcaster, applied to the new
light with no other writer, getCurrentPhase gives red when N is even and green when N is odd, and
so does it after every run of one thread through cycleThroughPhases, N being the number of
iterations of the run that took the toggle branch; a toggle turns red into green and green into
red, so it neither skips nor repeats a state. -/
theorem TrafficLight.toggle_alternation (c : Int) :
    (TrafficLight.ctor c).1.getCurrentPhase.1 = TrafficLightPhase.red ∧
    (∀ N : Nat,
      (TrafficLight.toggleAndSend^[N] (TrafficLight.ctor c).1).getCurrentPhase.1
        = if N % 2 = 0 then TrafficLightPhase.red else TrafficLightPhase.green) ∧
    (∀ (st : ThreadState) (inps : List CycleInput),
      ((TrafficLight.ctor c).1.cycleRun st inps).1.getCurrentPhase.1
        = if (TrafficLight.ctor c).1.toggleCount st inps % 2 = 0 then TrafficLightPhase.red
          else TrafficLightPhase.green) ∧
    (∀ l : TrafficLight,
      (l.getCurrentPhase.1 = TrafficLightPhase.red →
        l.toggleAndSend.getCurrentPhase.1 = TrafficLightPhase.green) ∧
      (l.getCurrentPhase.1 = TrafficLightPhase.green →
        l.toggleAndSend.getCurrentPhase.1 = TrafficLightPhase.red) ∧
      l.toggleAndSend.getCurrentPhase.1 ≠ l.getCurrentPhase.1) := by
  refine ⟨rfl, ?_, ?_, ?_⟩
  · intro N
    exact TrafficLight.toggles_phase c N
  · intro st inps
    rw [TrafficLight.cycleRun_light]
    exact TrafficLight.toggles_phase c _
  · intro l
    exact TrafficLight.toggleAndSend_flips l

/-- Witness of C3: a thread on a new light draws 4000, toggles after 4000 ms and does not toggle
10 ticks later: one toggle, the light is green. -/
theorem TrafficLight.toggle_alternation_witness :
    (TrafficLight.ctor 0).1.toggleCount ThreadState.entry
        [{ draw := ⟨4000, by decide⟩, now := 0, nowAtReset := 0 },
         { draw := ⟨4000, by decide⟩, now := 4000000000, nowAtReset := 4000000005 },
         { draw := ⟨4000, by decide⟩, now := 4000000015, nowAtReset := 4000000020 }] = 1 ∧
    ((TrafficLight.ctor 0).1.cycleRun ThreadState.entry
        [{ draw := ⟨4000, by decide⟩, now := 0, nowAtReset := 0 },
         { draw := ⟨4000, by decide⟩, now := 4000000000, nowAtReset := 4000000005 },
         { draw := ⟨4000, by decide⟩, now := 4000000015, nowAtReset := 4000000020 }]).1.getCurrentPhase.1
      = TrafficLightPhase.green :=
  ⟨by decide,
   ((TrafficLight.toggle_alternation 0).2.2.1 ThreadState.entry
      [{ draw := ⟨4000, by decide⟩, now := 0, nowAtReset := 0 },
       { draw := ⟨4000, by decide⟩, now := 4000000000, nowAtReset := 4000000005 },
       { draw := ⟨4000, by decide⟩, now := 4000000015, nowAtReset := 4000000020 }]).trans
     (by decide)⟩

/-- C8: a toggle is followed at once by one send of the new phase: the toggle branch changes the
phase and appends exactly the new phase to the queue. On a new light, with one broadcaster and
no consumer: after N toggles the queue holds exactly N values, green, red, green, ...; the i-th
value published is the phase set by the i-th toggle; the last value published is what
getCurrentPhase returns; no two neighbours in the queue are equal. The same holds after every run
of one thread through cycleThroughPhases, N being the number of toggles of the run. -/
theorem TrafficLight.toggle_publish (c : Int) :
    (∀ l : TrafficLight,
      l.toggleAndSend._messageQueue._queue
        = l._messageQueue._queue ++ [l.toggleAndSend._currentPhase] ∧
      l.toggleAndSend._currentPhase ≠ l._currentPhase ∧
      l.toggleAndSend.toTrafficObject = l.toTrafficObject) ∧
    (∀ N : Nat,
      (TrafficLight.toggleAndSend^[N] (TrafficLight.ctor c).1)._messageQueue._queue
        = alternation N ∧
      (TrafficLight.toggleAndSend^[N] (TrafficLight.ctor c).1)._messageQueue._queue.length = N ∧
      (∀ i, i < N →
        (TrafficLight.toggleAndSend^[N] (TrafficLight.ctor c).1)._messageQueue._queue[i]?
          = some (TrafficLight.toggleAndSend^[i + 1] (TrafficLight.ctor c).1)._currentPhase) ∧
      (0 < N →
        (TrafficLight.toggleAndSend^[N] (TrafficLight.ctor c).1)._messageQueue._queue.getLast?
          = some (TrafficLight.toggleAndSend^[N] (TrafficLight.ctor c).1).getCurrentPhase.1) ∧
      (∀ i, i + 1 < N →
        (TrafficLight.toggleAndSend^[N] (TrafficLight.ctor c).1)._messageQueue._queue[i]?
          ≠ (TrafficLight.toggleAndSend^[N] (TrafficLight.ctor c).1)._messageQueue._queue[i + 1]?))
    ∧
    (∀ (st : ThreadState) (inps : List CycleInput),
      ((TrafficLight.ctor c).1.cycleRun st inps).1
        = TrafficLight.toggleAndSend^[(TrafficLight.ctor c).1.toggleCount st inps]
            (TrafficLight.ctor c).1 ∧
      ((TrafficLight.ctor c).1.cycleRun st inps).1._messageQueue._queue
        = alternation ((TrafficLight.ctor c).1.toggleCount st inps)) := by
  refine ⟨?_, ?_, ?_⟩
  · intro l
    cases h : l._currentPhase with
    | red => rw [TrafficLight.toggleAndSend_red l h]; simp [MessageQueue.send]
    | green => rw [TrafficLight.toggleAndSend_green l h]; simp [MessageQueue.send]
  · intro N
    rw [TrafficLight.toggles_queue]
    refine ⟨rfl, alternation_length N, ?_, ?_, ?_⟩
    · intro i hi
      rw [alternation_getElem? N i hi, TrafficLight.toggles_phase]
      rcases Nat.mod_two_eq_zero_or_one i with h0 | h1
      · have : (i + 1) % 2 ≠ 0 := by omega
        simp [h0, this]
      · have : (i + 1) % 2 = 0 := by omega
        have h3 : i % 2 ≠ 0 := by omega
        simp [h3, this]
    · intro hN
      obtain ⟨m, rfl⟩ : ∃ m, N = m + 1 := ⟨N - 1, by omega⟩
      simp only [TrafficLight.getCurrentPhase]
      rw [TrafficLight.toggles_phase, alternation_succ, List.getLast?_concat]
      rcases Nat.mod_two_eq_zero_or_one m with h0 | h1
      · have : (m + 1) % 2 ≠ 0 := by omega
        simp [h0, this]
      · have : (m + 1) % 2 = 0 := by omega
        have h3 : m % 2 ≠ 0 := by omega
        simp [h3, this]
    · intro i hi
      rw [alternation_getElem? N i (by omega), alternation_getElem? N (i + 1) hi]
      rcases Nat.mod_two_eq_zero_or_one i with h0 | h1
      · have : (i + 1) % 2 ≠ 0 := by omega
        simp [h0, this]
      · have : (i + 1) % 2 = 0 := by omega
        have h3 : i % 2 ≠ 0 := by omega
        simp [h3, this]
  · intro st inps
    rw [TrafficLight.cycleRun_light]
    exact ⟨rfl, TrafficLight.toggles_queue c _⟩

/-- Witness of C8: a thread on a new light draws 4000 and toggles twice; the queue holds green,
red. -/
theorem TrafficLight.toggle_publish_witness :
    (TrafficLight.ctor 0).1.toggleCount ThreadState.entry
        [{ draw := ⟨4000, by decide⟩, now := 0, nowAtReset := 0 },
         { draw := ⟨4000, by decide⟩, now := 4000000000, nowAtReset := 4000000005 },
         { draw := ⟨4000, by decide⟩, now := 8000000005, nowAtReset := 8000000010 }] = 2 ∧
    ((TrafficLight.ctor 0).1.cycleRun ThreadState.entry
        [{ draw := ⟨4000, by decide⟩, now := 0, nowAtReset := 0 },
         { draw := ⟨4000, by decide⟩, now := 4000000000, nowAtReset := 4000000005 },
         { draw := ⟨4000, by decide⟩, now := 8000000005, nowAtReset := 8000000010 }]).1._messageQueue._queue
      = [TrafficLightPhase.green, TrafficLightPhase.red] :=
  ⟨by decide,
   (((TrafficLight.toggle_publish 0).2.2 ThreadState.entry
      [{ draw := ⟨4000, by decide⟩, now := 0, nowAtReset := 0 },
       { draw := ⟨4000, by decide⟩, now := 4000000000, nowAtReset := 4000000005 },
       { draw := ⟨4000, by decide⟩, now := 8000000005, nowAtReset := 8000000010 }]).2).trans
     (by decide)⟩

/-! ## The cycle threshold -/

theorem systemClockTicksPerMs_pos : 0 < systemClockTicksPerMs := by decide

/-- A truncated quotient that reaches a positive bound: the dividend reaches the bound times the
divisor. -/
theorem Int.le_of_le_tdiv (x t k : Int) (ht : 0 < t) (hk : 0 < k) (h : k ≤ Int.tdiv x t) :
    k * t ≤ x := by
  rcases le_or_lt 0 x with hx | hx
  · rw [Int.tdiv_eq_ediv hx (le_of_lt ht)] at h
    exact (Int.le_ediv_iff_mul_le ht).mp h
  · exfalso
    have h1 : Int.tdiv x t = -Int.tdiv (-x) t := by
      rw [Int.neg_tdiv, neg_neg]
    have h2 : 0 ≤ Int.tdiv (-x) t := Int.tdiv_nonneg (by omega) (le_of_lt ht)
    omega

theorem TrafficLight.toggleAndSend_ne (l : TrafficLight) : l.toggleAndSend ≠ l := by
  intro h
  have hq : l.toggleAndSend._messageQueue._queue.length = l._messageQueue._queue.length := by
    rw [h]
  cases hp : l._currentPhase with
  | red => rw [TrafficLight.toggleAndSend_red l hp] at hq; simp [MessageQueue.send] at hq
  | green => rw [TrafficLight.toggleAndSend_green l hp] at hq; simp [MessageQueue.send] at hq

theorem TrafficLight.cycleRun_duration (inps : List CycleInput) :
    ∀ (l : TrafficLight) (d last : Int),
      ∃ last1, (l.cycleRun (ThreadState.inLoop d last) inps).2 = ThreadState.inLoop d last1 := by
  induction inps with
  | nil => intro l d last; exact ⟨last, rfl⟩
  | cons inp inps ih =>
    intro l d last
    simp only [TrafficLight.cycleRun, TrafficLight.cycleThroughPhases]
    by_cases hc : timeSinceLastUpdate inp.now last ≥ d
    · simp only [if_pos hc]; exact ih _ _ _
    · simp only [if_neg hc]; exact ih _ _ _

/-- C9: the step before the loop sets the cycle duration to the draw, an integer d with
4000 <= d <= 6000, and after every further run of the thread the loop still has this d. An
iteration of the loop with duration d whose elapsed milliseconds since the reference point are
>= d toggles, publishes and sets the reference point to the new clock reading; an iteration with
fewer elapsed milliseconds leaves the light (phase and queue) and the reference point as they
were; so the light changes exactly when the elapsed milliseconds are >= d. For d >= 4000 an
iteration that changes the light has measured at least 4000 ms, that is at least 4000 ms of clock
ticks, since the reference point. -/
theorem TrafficLight.cycle_threshold (l : TrafficLight) (inp : CycleInput) :
    (l.cycleThroughPhases ThreadState.entry inp = (l, ThreadState.inLoop inp.draw.1 inp.now) ∧
      4000 ≤ inp.draw.1 ∧ inp.draw.1 ≤ 6000) ∧
    (∀ inps : List CycleInput, ∃ last,
      (l.cycleRun ThreadState.entry (inp :: inps)).2 = ThreadState.inLoop inp.draw.1 last) ∧
    (∀ d last : Int,
      (timeSinceLastUpdate inp.now last ≥ d →
        l.cycleThroughPhases (ThreadState.inLoop d last) inp
          = (l.toggleAndSend, ThreadState.inLoop d inp.nowAtReset)) ∧
      (timeSinceLastUpdate inp.now last < d →
        l.cycleThroughPhases (ThreadState.inLoop d last) inp
          = (l, ThreadState.inLoop d last)) ∧
      ((l.cycleThroughPhases (ThreadState.inLoop d last) inp).1 ≠ l
        ↔ timeSinceLastUpdate inp.now last ≥ d) ∧
      (4000 ≤ d → (l.cycleThroughPhases (ThreadState.inLoop d last) inp).1 ≠ l →
        4000 ≤ timeSinceLastUpdate inp.now last ∧
        4000 * systemClockTicksPerMs ≤ inp.now - last)) := by
  refine ⟨⟨rfl, inp.draw.2.1, inp.draw.2.2⟩, ?_, ?_⟩
  · intro inps
    simp only [TrafficLight.cycleRun, TrafficLight.cycleThroughPhases]
    exact TrafficLight.cycleRun_duration inps _ _ _
  · intro d last
    have hiff : (l.cycleThroughPhases (ThreadState.inLoop d last) inp).1 ≠ l
        ↔ timeSinceLastUpdate inp.now last ≥ d := by
      by_cases hc : timeSinceLastUpdate inp.now last ≥ d
      · simp only [TrafficLight.cycleThroughPhases, if_pos hc]
        exact ⟨fun _ => hc, fun _ => TrafficLight.toggleAndSend_ne l⟩
      · simp only [TrafficLight.cycleThroughPhases, if_neg hc]
        exact ⟨fun h => absurd rfl h, fun h => absurd h hc⟩
    refine ⟨?_, ?_, hiff, ?_⟩
    · intro hc
      simp only [TrafficLight.cycleThroughPhases, if_pos hc]
    · intro hc
      have hc1 : ¬ timeSinceLastUpdate inp.now last ≥ d := by omega
      simp only [TrafficLight.cycleThroughPhases, if_neg hc1]
    · intro hd hne
      have hge : timeSinceLastUpdate inp.now last ≥ d := hiff.mp hne
      have h4 : 4000 ≤ timeSinceLastUpdate inp.now last := by omega
      exact ⟨h4, Int.le_of_le_tdiv _ _ 4000 systemClockTicksPerMs_pos (by omega) h4⟩

/-- Witness of C9: a new light in the loop with cycle duration 4000 and reference point 0; at
the reading of 4000 ms the iteration toggles and resets the reference point. -/
theorem TrafficLight.cycle_threshold_witness :
    timeSinceLastUpdate 4000000000 0 ≥ 4000 ∧
    (TrafficLight.ctor 0).1.cycleThroughPhases (ThreadState.inLoop 4000 0)
        { draw := ⟨4000, by decide⟩, now := 4000000000, nowAtReset := 4000000005 }
      = ((TrafficLight.ctor 0).1.toggleAndSend, ThreadState.inLoop 4000 4000000005) :=
  ⟨by decide,
   ((TrafficLight.cycle_threshold (TrafficLight.ctor 0).1
      { draw := ⟨4000, by decide⟩, now := 4000000000, nowAtReset := 4000000005 }).2.2 4000 0).1
     (by decide)⟩

/-! ## Threads and destruction -/

theorem TrafficLight.toggleAndSend_base (l : TrafficLight) :
    l.toggleAndSend.toTrafficObject = l.toTrafficObject := by
  cases h : l._currentPhase with
  | red => rw [TrafficLight.toggleAndSend_red l h]
  | green => rw [TrafficLight.toggleAndSend_green l h]

theorem TrafficLight.cycleThroughPhases_base (l : TrafficLight) (st : ThreadState)
    (inp : CycleInput) :
    (l.cycleThroughPhases st inp).1.toTrafficObject = l.toTrafficObject := by
  cases st with
  | entry => rfl
  | returned => rfl
  | inLoop d last =>
    by_cases hc : timeSinceLastUpdate inp.now last ≥ d
    · simp only [TrafficLight.cycleThroughPhases, if_pos hc]
      exact TrafficLight.toggleAndSend_base l
    · simp only [TrafficLight.cycleThroughPhases, if_neg hc]

/-- An iteration of the loop ends at the loop head, with the same cycle duration. -/
theorem TrafficLight.cycleThroughPhases_inLoop (l : TrafficLight) (d last : Int)
    (inp : CycleInput) :
    ∃ last1, (l.cycleThroughPhases (ThreadState.inLoop d last) inp).2
      = ThreadState.inLoop d last1 := by
  by_cases hc : timeSinceLastUpdate inp.now last ≥ d
  · exact ⟨inp.nowAtReset, by simp only [TrafficLight.cycleThroughPhases, if_pos hc]⟩
  · exact ⟨last, by simp only [TrafficLight.cycleThroughPhases, if_neg hc]⟩

theorem TrafficLight.cycleThroughPhases_running (l : TrafficLight) (st : ThreadState)
    (inp : CycleInput) (h : st ≠ ThreadState.returned) :
    (l.cycleThroughPhases st inp).2 ≠ ThreadState.returned := by
  cases st with
  | entry => simp [TrafficLight.cycleThroughPhases]
  | returned => exact absurd rfl h
  | inLoop d last =>
    obtain ⟨last1, h1⟩ := TrafficLight.cycleThroughPhases_inLoop l d last inp
    rw [h1]; simp

theorem TrafficLight.cycleRun_running (inps : List CycleInput) :
    ∀ (l : TrafficLight) (st : ThreadState), st ≠ ThreadState.returned →
      (l.cycleRun st inps).2 ≠ ThreadState.returned := by
  induction inps with
  | nil => intro l st h; exact h
  | cons inp inps ih =>
    intro l st h
    simp only [TrafficLight.cycleRun]
    exact ih _ _ (TrafficLight.cycleThroughPhases_running l st inp h)

theorem World.step_threads (w : World) (ev : Event) :
    (w.step ev).light.threads = w.light.threads ++ Event.handles [ev] := by
  cases ev with
  | simulate tid => simp [World.step, TrafficLight.simulate, Event.handles]
  | worker j inp =>
    simp only [World.step, Event.handles, List.append_nil]
    cases hj : w.workers[j]? with
    | none => rfl
    | some st =>
      simp only []
      have := TrafficLight.cycleThroughPhases_base w.light st inp
      rw [this]

theorem Event.handles_cons (ev : Event) (evs : List Event) :
    Event.handles (ev :: evs) = Event.handles [ev] ++ Event.handles evs := by
  cases ev <;> simp [Event.handles]

theorem World.run_threads (evs : List Event) :
    ∀ w : World, (w.run evs).light.threads = w.light.threads ++ Event.handles evs := by
  induction evs with
  | nil => intro w; simp [World.run, Event.handles]
  | cons ev evs ih =>
    intro w
    have h := ih (w.step ev)
    simp only [World.run, List.foldl_cons] at h ⊢
    rw [h, World.step_threads, Event.handles_cons ev evs, List.append_assoc]

theorem World.step_running (w : World) (ev : Event) (h : w.Running) : (w.step ev).Running := by
  obtain ⟨hlen, hst⟩ := h
  cases ev with
  | simulate tid =>
    refine ⟨by simp [World.step, TrafficLight.simulate, hlen], ?_⟩
    intro st hmem
    simp only [World.step, List.mem_append, List.mem_singleton] at hmem
    rcases hmem with hmem | rfl
    · exact hst st hmem
    · simp
  | worker j inp =>
    cases hj : w.workers[j]? with
    | none => simp only [World.step, hj]; exact ⟨hlen, hst⟩
    | some st =>
      have hthreads := World.step_threads w (Event.worker j inp)
      simp only [Event.handles, List.append_nil] at hthreads
      refine ⟨by rw [hthreads]; simp [World.step, hj, hlen], ?_⟩
      intro st1 hmem
      simp only [World.step, hj] at hmem
      rcases List.mem_or_eq_of_mem_set hmem with hmem | rfl
      · exact hst st1 hmem
      · exact TrafficLight.cycleThroughPhases_running _ _ _
          (hst st (List.getElem?_mem hj))

theorem World.run_running (evs : List Event) :
    ∀ w : World, w.Running → (w.run evs).Running := by
  induction evs with
  | nil => intro w h; exact h
  | cons ev evs ih =>
    intro w h
    have := ih (w.step ev) (World.step_running w ev h)
    simpa [World.run] using this

theorem World.fresh_running (c : Int) : (World.fresh c).Running :=
  ⟨rfl, by intro st h; simp [World.fresh] at h⟩

theorem Teardown.step_keeps_threads (t : Teardown) (ev : TeardownEvent) :
    (t.step ev).world.light.threads = t.world.light.threads := by
  cases ev with
  | worker j inp =>
    have := World.step_threads t.world (Event.worker j inp)
    simpa [Teardown.step, Event.handles] using this
  | destructor =>
    simp only [Teardown.step]
    split
    · rfl
    · split
      · split <;> rfl
      · rfl

/-- The calls of `join()` made so far are the handles before the iterator, and the one at the
iterator when the destructor is inside its `join()`. -/
theorem Teardown.step_calls (t : Teardown) (ev : TeardownEvent)
    (h : t.joinCalls = t.world.light.threads.take (t.pos + (if t.inJoin then 1 else 0))) :
    (t.step ev).joinCalls
      = (t.step ev).world.light.threads.take
          ((t.step ev).pos + (if (t.step ev).inJoin then 1 else 0)) := by
  rw [Teardown.step_keeps_threads]
  cases ev with
  | worker j inp => simpa [Teardown.step] using h
  | destructor =>
    cases hh : t.world.light.threads[t.pos]? with
    | none =>
      simp only [Teardown.step, hh]
      exact h
    | some hd =>
      by_cases hj : t.inJoin = true
      · by_cases hr : t.world.workers[t.pos]? = some ThreadState.returned
        · simp only [Teardown.step, hh, if_pos hj, if_pos hr]
          rw [if_pos hj] at h
          simpa using h
        · simp only [Teardown.step, hh, if_pos hj, if_neg hr]
          rw [if_pos hj] at h
          exact h
      · simp only [Teardown.step, hh, if_neg hj]
        rw [if_neg hj, Nat.add_zero] at h
        rw [h, if_pos trivial, List.take_succ, hh]
        rfl

theorem Teardown.run_calls (evs : List TeardownEvent) :
    ∀ t : Teardown,
      t.joinCalls = t.world.light.threads.take (t.pos + (if t.inJoin then 1 else 0)) →
      (t.run evs).world.light.threads = t.world.light.threads ∧
      (t.run evs).joinCalls
        = t.world.light.threads.take
            ((t.run evs).pos + (if (t.run evs).inJoin then 1 else 0)) := by
  induction evs with
  | nil => intro t h; exact ⟨rfl, h⟩
  | cons ev evs ih =>
    intro t h
    have h1 := ih (t.step ev) (Teardown.step_calls t ev h)
    rw [Teardown.step_keeps_threads] at h1
    simpa [Teardown.run] using h1

/-- While no thread has ended, the destructor does not get past the first handle. -/
theorem Teardown.step_stuck (t : Teardown) (ev : TeardownEvent)
    (hrun : t.world.Running) (hpos : t.pos = 0)
    (hcalls : (t.inJoin = false ∧ t.joinCalls = []) ∨
      (t.inJoin = true ∧ t.joinCalls = t.world.light.threads.take 1)) :
    (t.step ev).world.Running ∧ (t.step ev).pos = 0 ∧
    (((t.step ev).inJoin = false ∧ (t.step ev).joinCalls = []) ∨
      ((t.step ev).inJoin = true ∧
        (t.step ev).joinCalls = (t.step ev).world.light.threads.take 1)) := by
  rw [Teardown.step_keeps_threads]
  cases ev with
  | worker j inp =>
    exact ⟨World.step_running t.world _ hrun, hpos, hcalls⟩
  | destructor =>
    cases hh : t.world.light.threads[t.pos]? with
    | none =>
      simp only [Teardown.step, hh]
      exact ⟨hrun, hpos, hcalls⟩
    | some hd =>
      by_cases hj : t.inJoin = true
      · have hr : ¬ t.world.workers[t.pos]? = some ThreadState.returned := by
          intro e
          exact hrun.2 _ (List.getElem?_mem e) rfl
        simp only [Teardown.step, hh, if_pos hj, if_neg hr]
        exact ⟨hrun, hpos, hcalls⟩
      · rcases hcalls with ⟨_, hc⟩ | ⟨hc, _⟩
        · simp only [Teardown.step, hh, if_neg hj]
          refine ⟨hrun, hpos, Or.inr ⟨trivial, ?_⟩⟩
          rw [hpos] at hh
          rw [hc, List.take_succ, hh]
          rfl
        · exact absurd hc hj

theorem Teardown.run_stuck (evs : List TeardownEvent) :
    ∀ t : Teardown, t.world.Running → t.pos = 0 →
      ((t.inJoin = false ∧ t.joinCalls = []) ∨
        (t.inJoin = true ∧ t.joinCalls = t.world.light.threads.take 1)) →
      (t.run evs).world.Running ∧ (t.run evs).pos = 0 ∧
      (((t.run evs).inJoin = false ∧ (t.run evs).joinCalls = []) ∨
        ((t.run evs).inJoin = true ∧
          (t.run evs).joinCalls = (t.run evs).world.light.threads.take 1)) := by
  induction evs with
  | nil => intro t h1 h2 h3; exact ⟨h1, h2, h3⟩
  | cons ev evs ih =>
    intro t h1 h2 h3
    obtain ⟨a, b, c⟩ := Teardown.step_stuck t ev h1 h2 h3
    have := ih (t.step ev) a b c
    simpa [Teardown.run] using this

/-- The destruction of a light reached by `simulate` calls and thread steps: under every
schedule the iterator stays on the first handle, `join()` is called on no other handle, and the
threads stay in `cycleThroughPhases`. -/
theorem Teardown.reachable_stuck (c : Int) (evs : List Event) (tevs : List TeardownEvent) :
    ((Teardown.start ((World.fresh c).run evs)).run tevs).world.Running ∧
    ((Teardown.start ((World.fresh c).run evs)).run tevs).world.light.threads
      = Event.handles evs ∧
    ((Teardown.start ((World.fresh c).run evs)).run tevs).pos = 0 ∧
    (((Teardown.start ((World.fresh c).run evs)).run tevs).joinCalls = [] ∨
      ((Teardown.start ((World.fresh c).run evs)).run tevs).joinCalls
        = (Event.handles evs).take 1) := by
  have hrun := World.run_running evs _ (World.fresh_running c)
  have hthreads : ((World.fresh c).run evs).light.threads = Event.handles evs := by
    rw [World.run_threads]; rfl
  obtain ⟨h1, h2, h3⟩ := Teardown.run_stuck tevs (Teardown.start ((World.fresh c).run evs))
    hrun rfl (Or.inl ⟨rfl, rfl⟩)
  have h4 : ((Teardown.start ((World.fresh c).run evs)).run tevs).world.light.threads
      = Event.handles evs := by
    rw [← hthreads]
    exact (Teardown.run_calls tevs (Teardown.start ((World.fresh c).run evs))
      (by simp [Teardown.start])).1
  refine ⟨h1, h4, h2, ?_⟩
  rcases h3 with ⟨_, h⟩ | ⟨_, h⟩
  · exact Or.inl h
  · right; rw [h, h4]

theorem Teardown.run_append (t : Teardown) (evs1 evs2 : List TeardownEvent) :
    t.run (evs1 ++ evs2) = (t.run evs1).run evs2 := by
  simp [Teardown.run, List.foldl_append]

/-- When every thread has ended, two destructor steps a handle take the destructor through the
list: after `2 * k` steps it has called `join()` on the first `k` handles and returned from each. -/
theorem Teardown.run_allReturned (w : World) (h : w.AllReturned) (k : Nat)
    (hk : k ≤ w.light.threads.length) :
    (Teardown.start w).run (List.replicate (2 * k) TeardownEvent.destructor)
      = { world := w, joinCalls := w.light.threads.take k, pos := k, inJoin := false } := by
  induction k with
  | zero => simp [Teardown.run, Teardown.start]
  | succ k ih =>
    have hlt : k < w.light.threads.length := by omega
    have hrep : List.replicate (2 * (k + 1)) TeardownEvent.destructor
        = List.replicate (2 * k) TeardownEvent.destructor
          ++ [TeardownEvent.destructor, TeardownEvent.destructor] := by
      rw [show 2 * (k + 1) = 2 * k + 2 by omega, List.replicate_add]
      rfl
    rw [hrep, Teardown.run_append, ih (by omega)]
    have hh : w.light.threads[k]? = some (w.light.threads[k]) := List.getElem?_eq_getElem hlt
    have hw : w.workers[k]? = some ThreadState.returned := by
      rw [h, List.getElem?_replicate, if_pos hlt]
    simp only [Teardown.run, List.foldl_cons, List.foldl_nil, Teardown.step, hh, hw,
      Bool.false_eq_true, if_false, if_true]
    rw [List.take_succ, hh]
    rfl

theorem TrafficLight.simulate_foldl (tids : List Nat) :
    ∀ l : TrafficLight,
      (tids.foldl TrafficLight.simulate l).threads
        = l.threads ++ tids.map (fun tid => ({ tid := tid } : Thread)) := by
  induction tids with
  | nil => intro l; simp
  | cons tid tids ih =>
    intro l
    rw [List.foldl_cons, ih]
    simp [TrafficLight.simulate]

/-- C6, as the code has it: a call of simulate appends exactly one handle at the end of the thread
list and changes nothing else, so after k calls on a new light the list holds the k handles in call
order. The destructor calls join() on the recorded handles in insertion order, on each at most once
and on nothing else (at every moment the calls made are an initial segment of the list), and goes on
to the next handle only when the thread of the one before has ended: when all the recorded threads
have ended it joins every handle exactly once, in insertion order; on a light whose handles come
from simulate, join() is called on the first handle at most, under every schedule. -/
theorem TrafficLight.worker_lifecycle :
    (∀ (l : TrafficLight) (tid : Nat),
      (l.simulate tid).threads = l.threads ++ [{ tid := tid }] ∧
      (l.simulate tid)._id = l._id ∧ (l.simulate tid)._type = l._type ∧
      (l.simulate tid)._currentPhase = l._currentPhase ∧
      (l.simulate tid)._messageQueue = l._messageQueue) ∧
    (∀ (c : Int) (tids : List Nat),
      (tids.foldl TrafficLight.simulate (TrafficLight.ctor c).1).threads
        = tids.map (fun tid => ({ tid := tid } : Thread)) ∧
      (tids.foldl TrafficLight.simulate (TrafficLight.ctor c).1).threads.length
        = tids.length) ∧
    (∀ (w : World) (tevs : List TeardownEvent),
      ((Teardown.start w).run tevs).joinCalls <+: w.light.threads) ∧
    (∀ w : World, w.AllReturned →
      ((Teardown.start w).run
          (List.replicate (2 * w.light.threads.length) TeardownEvent.destructor)).joinCalls
        = w.light.threads ∧
      ((Teardown.start w).run
          (List.replicate (2 * w.light.threads.length) TeardownEvent.destructor)).finished
        = true) ∧
    (∀ (c : Int) (evs : List Event) (tevs : List TeardownEvent),
      ((World.fresh c).run evs).light.threads = Event.handles evs ∧
      (((Teardown.start ((World.fresh c).run evs)).run tevs).joinCalls = [] ∨
        ((Teardown.start ((World.fresh c).run evs)).run tevs).joinCalls
          = (Event.handles evs).take 1)) := by
  refine ⟨fun l tid => ⟨rfl, rfl, rfl, rfl, rfl⟩, ?_, ?_, ?_, ?_⟩
  · intro c tids
    have h := TrafficLight.simulate_foldl tids (TrafficLight.ctor c).1
    have h0 : (TrafficLight.ctor c).1.threads = [] := rfl
    rw [h0, List.nil_append] at h
    exact ⟨h, by rw [h]; simp⟩
  · intro w tevs
    have h := (Teardown.run_calls tevs (Teardown.start w) (by simp [Teardown.start])).2
    rw [h]
    exact List.take_prefix _ _
  · intro w h
    rw [Teardown.run_allReturned w h _ (le_refl _)]
    exact ⟨by simp, by simp [Teardown.finished]⟩
  · intro c evs tevs
    have h := Teardown.reachable_stuck c evs tevs
    refine ⟨?_, h.2.2.2⟩
    rw [World.run_threads]; rfl

/-- Witness of C6: an object with two handles whose threads have ended; the destructor joins both
handles, in insertion order. -/
theorem TrafficLight.worker_lifecycle_witness :
    World.AllReturned
      { light := { _type := ObjectType.noObject, _id := 0, threads := [{ tid := 7 }, { tid := 8 }],
                   _currentPhase := TrafficLightPhase.red, _messageQueue := { _queue := [] } },
        workers := [ThreadState.returned, ThreadState.returned] } ∧
    ((Teardown.start
        { light := { _type := ObjectType.noObject, _id := 0,
                     threads := [{ tid := 7 }, { tid := 8 }],
                     _currentPhase := TrafficLightPhase.red, _messageQueue := { _queue := [] } },
          workers := [ThreadState.returned, ThreadState.returned] }).run
        (List.replicate (2 * 2) TeardownEvent.destructor)).joinCalls
      = [{ tid := 7 }, { tid := 8 }] :=
  ⟨rfl,
   (TrafficLight.worker_lifecycle.2.2.2.1
      { light := { _type := ObjectType.noObject, _id := 0, threads := [{ tid := 7 }, { tid := 8 }],
                   _currentPhase := TrafficLightPhase.red, _messageQueue := { _queue := [] } },
        workers := [ThreadState.returned, ThreadState.returned] } rfl).1⟩

/-- C6 as stated fails: on a new light with two simulate calls (handles 7 and 8) the destructor
calls join() on handle 7 and stays there while the threads run; under no schedule are both handles
joined. -/
theorem TrafficLight.worker_lifecycle_counterexample :
    ((World.fresh 0).run [Event.simulate 7, Event.simulate 8]).light.threads
      = [{ tid := 7 }, { tid := 8 }] ∧
    ((Teardown.start ((World.fresh 0).run [Event.simulate 7, Event.simulate 8])).run
        [TeardownEvent.destructor, TeardownEvent.destructor,
         TeardownEvent.worker 0 { draw := ⟨4000, by decide⟩, now := 0, nowAtReset := 0 },
         TeardownEvent.worker 1 { draw := ⟨4000, by decide⟩, now := 0, nowAtReset := 0 },
         TeardownEvent.destructor, TeardownEvent.destructor]).joinCalls = [{ tid := 7 }] ∧
    ¬ ∃ tevs : List TeardownEvent,
      ((Teardown.start ((World.fresh 0).run [Event.simulate 7, Event.simulate 8])).run
        tevs).joinCalls = [{ tid := 7 }, { tid := 8 }] := by
  refine ⟨by decide, by decide, ?_⟩
  rintro ⟨tevs, h⟩
  rcases (Teardown.reachable_stuck 0 [Event.simulate 7, Event.simulate 8] tevs).2.2.2
    with h1 | h1
  · rw [h1] at h; cases h
  · rw [h1] at h; simp [Event.handles] at h

/-- C10: the broadcaster loop never ends. From every loop state (any light, so any phase and
queue; any cycle duration, reference point and clock readings) the next iteration is defined and
ends in a loop state again; no run of a thread through cycleThroughPhases, from its entry or from
the loop, reaches the end of the function. So when a light that was reached by simulate calls and
thread steps is destroyed, under every schedule of thread and destructor steps no thread has
ended, and if simulate was called at all the destructor is still at the first handle: its join()
does not return and the destructor does not finish. -/
theorem TrafficLight.cycleThroughPhases_never_ends :
    (∀ (l : TrafficLight) (d last : Int) (inp : CycleInput),
      ∃ last1, (l.cycleThroughPhases (ThreadState.inLoop d last) inp).2
        = ThreadState.inLoop d last1) ∧
    (∀ (l : TrafficLight) (d last : Int) (inps : List CycleInput),
      ∃ last1, (l.cycleRun (ThreadState.inLoop d last) inps).2 = ThreadState.inLoop d last1) ∧
    (∀ (l : TrafficLight) (inps : List CycleInput),
      (l.cycleRun ThreadState.entry inps).2 ≠ ThreadState.returned) ∧
    (∀ (c : Int) (evs : List Event) (tevs : List TeardownEvent),
      (∀ st ∈ ((Teardown.start ((World.fresh c).run evs)).run tevs).world.workers,
        st ≠ ThreadState.returned) ∧
      (Event.handles evs ≠ [] →
        ((Teardown.start ((World.fresh c).run evs)).run tevs).pos = 0 ∧
        ((Teardown.start ((World.fresh c).run evs)).run tevs).finished = false)) := by
  refine ⟨TrafficLight.cycleThroughPhases_inLoop, ?_, ?_, ?_⟩
  · intro l d last inps
    exact TrafficLight.cycleRun_duration inps l d last
  · intro l inps
    exact TrafficLight.cycleRun_running inps l _ (by simp)
  · intro c evs tevs
    obtain ⟨hrun, hthreads, hpos, _⟩ := Teardown.reachable_stuck c evs tevs
    refine ⟨hrun.2, ?_⟩
    intro hne
    refine ⟨hpos, ?_⟩
    simp only [Teardown.finished, hthreads, hpos, decide_eq_false_iff_not, not_le]
    exact List.length_pos.mpr hne

/-- Witness of C10: a new light, one simulate call, the thread enters the loop; the destructor is
given four steps with a thread step among them and is still at the first handle. -/
theorem TrafficLight.cycleThroughPhases_never_ends_witness :
    Event.handles [Event.simulate 7,
        Event.worker 0 { draw := ⟨5000, by decide⟩, now := 0, nowAtReset := 0 }] ≠ [] ∧
    ((Teardown.start ((World.fresh 0).run [Event.simulate 7,
        Event.worker 0 { draw := ⟨5000, by decide⟩, now := 0, nowAtReset := 0 }])).run
      [TeardownEvent.destructor, TeardownEvent.destructor,
       TeardownEvent.worker 0 { draw := ⟨5000, by decide⟩, now := 5000000000, nowAtReset := 0 },
       TeardownEvent.destructor, TeardownEvent.destructor]).finished = false :=
  ⟨by decide,
   ((TrafficLight.cycleThroughPhases_never_ends.2.2.2 0
      [Event.simulate 7,
        Event.worker 0 { draw := ⟨5000, by decide⟩, now := 0, nowAtReset := 0 }]
      [TeardownEvent.destructor, TeardownEvent.destructor,
       TeardownEvent.worker 0 { draw := ⟨5000, by decide⟩, now := 5000000000, nowAtReset := 0 },
       TeardownEvent.destructor, TeardownEvent.destructor]).2 (by decide)).2⟩

/-! ## Lock protection of `_currentPhase` -/

/-- C7 fails on the code: getCurrentPhase and setCurrentPhase access `_currentPhase` under
`_phaseMutex`, but a toggling iteration of cycleThroughPhases reads `_currentPhase` for the send
after the lock is released. Evaluated on a new light in the loop with cycle duration 4000 and
4000 ms elapsed, and stated for every iteration that takes the toggle branch. -/
theorem TrafficLight.currentPhase_read_unlocked :
    phaseAccessesLocked false getCurrentPhaseAccesses = true ∧
    phaseAccessesLocked false setCurrentPhaseAccesses = true ∧
    (TrafficLight.ctor 0).1.cycleThroughPhasesAccesses (ThreadState.inLoop 4000 0)
        { draw := ⟨4000, by decide⟩, now := 4000000000, nowAtReset := 4000000001 }
      = [Access.lock Mutex._phaseMutex, Access.readCurrentPhase, Access.unlock Mutex._phaseMutex,
         Access.lock Mutex._phaseMutex, Access.writeCurrentPhase, Access.unlock Mutex._phaseMutex,
         Access.lock Mutex._mutex, Access.readCurrentPhase, Access.pushBack,
         Access.unlock Mutex._mutex] ∧
    phaseAccessesLocked false
      ((TrafficLight.ctor 0).1.cycleThroughPhasesAccesses (ThreadState.inLoop 4000 0)
        { draw := ⟨4000, by decide⟩, now := 4000000000, nowAtReset := 4000000001 }) = false ∧
    (∀ (l : TrafficLight) (d last : Int) (inp : CycleInput),
      timeSinceLastUpdate inp.now last ≥ d →
      phaseAccessesLocked false (l.cycleThroughPhasesAccesses (ThreadState.inLoop d last) inp)
        = false) := by
  refine ⟨by decide, by decide, by decide, by decide, ?_⟩
  intro l d last inp hc
  simp only [TrafficLight.cycleThroughPhasesAccesses, if_pos hc,
    TrafficLight.toggleAndSendAccesses]
  cases l._currentPhase <;> decide
